import Mathlib

/-!
Verification development for the VRChat log viewer
(`src/vrchat_log_viewer_modular.pyw`).

The main application file is embedded directly.  The helper modules
`constants.py`, `models.py` and `utils.py` are referenced by the main file
but are not part of the available sources; the definitions translated from
them are modelled from the specification and are marked with a doc comment
starting with `Modelled from the spec:`.

Strings are modelled as Lean `String`s (lists of unicode code points);
Python's `str.lower`, `\w`, `\s`, `\d` character classes are modelled on
their ASCII parts, which covers every input used in the development.
-/

namespace VRChatLogViewer

/-! ## Basic string utilities (Python string primitives) -/

/-- Python `str.lower` on one character (ASCII part). -/
def lowerChar (c : Char) : Char :=
  if 'A' ≤ c ∧ c ≤ 'Z' then Char.ofNat (c.toNat + 32) else c

/-- Python `str.lower` (ASCII part). -/
def lowerStr (s : String) : String :=
  String.mk (s.data.map lowerChar)

/-- `startsWithChars hay needle` holds when `needle` is a prefix of `hay`. -/
def startsWithChars : List Char → List Char → Bool
  | _, [] => true
  | [], _ :: _ => false
  | c :: cs, d :: ds => c = d && startsWithChars cs ds

/-- Python's substring test `needle in hay` on character lists.
The empty needle is contained in everything, as in Python. -/
def containsChars : List Char → List Char → Bool
  | [], needle => needle.isEmpty
  | hay@(_ :: rest), needle => startsWithChars hay needle || containsChars rest needle

/-- Python's substring test `needle in hay` on strings. -/
def strContains (hay needle : String) : Bool :=
  containsChars hay.data needle.data

/-- Python's string comparison `a < b`: lexicographic by code point. -/
def charListLt : List Char → List Char → Bool
  | [], [] => false
  | [], _ :: _ => true
  | _ :: _, [] => false
  | a :: as, b :: bs =>
    if a < b then true else if b < a then false else charListLt as bs

/-- Python's string comparison `a < b` on strings. -/
def strLt (a b : String) : Bool :=
  charListLt a.data b.data

/-- Auxiliary scanner for `splitKeepEnds`: `acc` holds the reversed
characters of the current (unfinished) line. -/
def splitKeepEndsAux : List Char → List Char → List String
  | [], acc => if acc.isEmpty then [] else [String.mk acc.reverse]
  | c :: rest, acc =>
    if c = '\n' then
      String.mk (acc.reverse ++ ['\n']) :: splitKeepEndsAux rest []
    else
      splitKeepEndsAux rest (c :: acc)

/-- Python `str.splitlines(keepends=True)`, restricted to `'\n'` line
terminators (the only terminator appearing in the modelled inputs). -/
def splitKeepEnds (s : String) : List String :=
  splitKeepEndsAux s.data []

/-- File size as observed by `os.stat().st_size`, for UTF-8 encoded text. -/
def fileSize (content : String) : Nat :=
  content.utf8ByteSize

/-! ## Character classes of the regular expressions in `apply_filter`

`re.search(r'\[([\w\s]+)\]', line)`, `re.sub(r'\d+', 'N', ...)` from
`apply_filter` (src/vrchat_log_viewer_modular.pyw lines 848 and 852),
with `\w`, `\s`, `\d` modelled on their ASCII parts. -/

/-- A character matched by `[\w\s]` (ASCII part). -/
def tagChar (c : Char) : Bool :=
  c.isAlphanum || c = '_' || c = ' ' || c = '\t' || c = '\n' || c = '\r'

/-- `re.search(r'\[([\w\s]+)\]', cs)`: the leftmost bracketed non-empty run
of word/space characters; the auxiliary works on the character list. -/
def findTagAux : List Char → Option String
  | [] => none
  | c :: rest =>
    if c = '[' then
      if !(rest.takeWhile tagChar).isEmpty
          && (rest.drop (rest.takeWhile tagChar).length).head? = some ']' then
        some (String.mk (rest.takeWhile tagChar))
      else
        findTagAux rest
    else
      findTagAux rest

/-- The bracketed tag of a raw line as computed by `apply_filter`:
`tag_match.group(1) if tag_match else None`. -/
def findTag (line : String) : Option String :=
  findTagAux line.data

/-- Scanner for `re.sub(r'\d+', 'N', cs)`: `inRun` records whether the
previous character was part of a digit run already replaced by `'N'`. -/
def digitNormAux : Bool → List Char → List Char
  | _, [] => []
  | inRun, c :: rest =>
    if c.isDigit then
      if inRun then digitNormAux true rest else 'N' :: digitNormAux true rest
    else
      c :: digitNormAux false rest

/-- `re.sub(r'\d+', 'N', cs)`: every maximal digit run replaced by `'N'`. -/
def digitNorm (cs : List Char) : List Char :=
  digitNormAux false cs

/-- `re.sub(r'\d+', 'N', content[:100])`: the normalized content key used
to group repeated messages in `apply_filter`. -/
def contentClean (content : String) : String :=
  String.mk (digitNorm (content.data.take 100))

/-! ## Log records and the line parser -/

/-- Modelled from the spec: the `LogInfo` record of the missing `models.py`
(spec §3 LogRecord): `timestamp` (possibly empty for synthetic headers),
`level`, `content` (possibly truncated), `tags` (classification labels such
as `"group_header"`). -/
structure LogInfo where
  timestamp : String
  level : String
  content : String
  tags : List String
deriving DecidableEq, Repr

/-- A character allowed inside the bracketed leading timestamp:
digits and date/time punctuation. -/
def tsChar (c : Char) : Bool :=
  c.isDigit || c = '-' || c = ':' || c = '.' || c = '/' || c = ' '

/-- Modelled from the spec: the leading-timestamp pattern of the missing
`utils.py` `LogParser` (spec §4.2, scenario §8: `"[2024-01-01 10:00:00]
[Error] boom"` has timestamp `"2024-01-01 10:00:00"`).  Returns the
timestamp characters and the remaining characters when the line starts
with a bracketed timestamp. -/
def splitTimestamp : List Char → Option (List Char × List Char)
  | [] => none
  | c :: rest =>
    if c = '[' then
      if !(rest.takeWhile tsChar).isEmpty
          && (rest.drop (rest.takeWhile tsChar).length).head? = some ']' then
        some (rest.takeWhile tsChar, rest.drop ((rest.takeWhile tsChar).length + 1))
      else
        none
    else
      none

/-- The four level keywords of the level classifier, lowercase. -/
def errK : List Char := ['e', 'r', 'r', 'o', 'r']

/-- Lowercase characters of the keyword `warning`. -/
def warnK : List Char := ['w', 'a', 'r', 'n', 'i', 'n', 'g']

/-- Lowercase characters of the keyword `info`. -/
def infoK : List Char := ['i', 'n', 'f', 'o']

/-- Lowercase characters of the keyword `debug`. -/
def dbgK : List Char := ['d', 'e', 'b', 'u', 'g']

/-- Modelled from the spec: level classification of the missing `utils.py`
`LogParser` (spec §4.2): scan for level keywords anywhere in the line,
case-insensitively, first (leftmost) match wins.  Works on the lowercased
character list. -/
def levelOfAux : List Char → String
  | [] => "Unknown"
  | cs@(_ :: rest) =>
    if startsWithChars cs errK then "Error"
    else if startsWithChars cs warnK then "Warning"
    else if startsWithChars cs infoK then "Info"
    else if startsWithChars cs dbgK then "Debug"
    else levelOfAux rest

/-- The level of a raw line (spec §4.2). -/
def levelOf (line : String) : String :=
  levelOfAux (line.data.map lowerChar)

/-- Is the (lowercased) marker one of the level keywords? -/
def isLevelKeyword (s : List Char) : Bool :=
  s = errK || s = warnK || s = infoK || s = dbgK

/-- Modelled from the spec: the bracketed level marker (such as `[Error]`)
is removed from the content portion, following the spec §8 scenario where
`"[2024-01-01 10:00:00] [Error] boom"` parses to content `"boom"`. -/
def stripLevelMarker (cs : List Char) : List Char :=
  match cs with
  | [] => []
  | c :: rest =>
    if c = '[' then
      if !(rest.takeWhile tagChar).isEmpty
          && (rest.drop (rest.takeWhile tagChar).length).head? = some ']'
          && isLevelKeyword ((rest.takeWhile tagChar).map lowerChar) then
        rest.drop ((rest.takeWhile tagChar).length + 1)
      else
        c :: rest
    else
      c :: rest

/-- Modelled from the spec: content truncation of the missing `utils.py`
`LogParser` (spec §4.2): if truncation is enabled and the content exceeds
200 characters it is cut at the threshold with an elision suffix. -/
def truncateContent (enabled : Bool) (s : String) : String :=
  if enabled && decide (200 < s.data.length) then
    String.mk (s.data.take 200) ++ "..."
  else
    s

/-- Modelled from the spec: `LogParser.parse_log_line(line, collapse_long)`
of the missing `utils.py` (spec §4.2).  Total: extracts the bracketed
leading timestamp when present (otherwise the timestamp is empty and the
whole line is the content), strips the bracketed level marker and
surrounding spaces from the content portion, classifies the level by
keyword scan, and truncates long content when enabled.  The parser itself
attaches no tags (spec §8 scenario: `tags = {}`). -/
def parse_log_line (line : String) (collapse_long : Bool) : LogInfo :=
  match splitTimestamp line.data with
  | none =>
    { timestamp := ""
      level := levelOf line
      content := truncateContent collapse_long line
      tags := [] }
  | some (ts, rest) =>
    let afterTs := rest.dropWhile (· = ' ')
    let afterMarker := stripLevelMarker afterTs
    let content := String.mk (afterMarker.dropWhile (· = ' '))
    { timestamp := String.mk ts
      level := levelOf line
      content := truncateContent collapse_long content
      tags := [] }

/-- The level check-box states passed to the filter by `apply_filter`
(src lines 817-822): `show_filters = {error, warning, debug, info}`. -/
structure ShowFilters where
  error : Bool
  warning : Bool
  debug : Bool
  info : Bool
deriving DecidableEq, Repr

/-- Modelled from the spec: `LogParser.should_show_log(line, show_filters)`
of the missing `utils.py` (spec §4.6 level inclusion
`record.level ∈ config.levels`): a line is shown when its classified level
is one of the four UI levels and that level's check-box is on. -/
def should_show_log (line : String) (f : ShowFilters) : Bool :=
  if levelOf line = "Error" then f.error
  else if levelOf line = "Warning" then f.warning
  else if levelOf line = "Info" then f.info
  else if levelOf line = "Debug" then f.debug
  else false

/-! ## The filter pipeline `apply_filter`

Translated from `src/vrchat_log_viewer_modular.pyw` lines 805-922.
`GROUP_COLLAPSE_THRESHOLD` comes from the missing `constants.py`, so the
threshold is carried as a configuration field (the spec §4.5 requires it
to be at least 1). -/

/-- The filter configuration of one `apply_filter` pass: the raw search-box
text, the four level check-boxes, the two collapse toggles, and the collapse
threshold `GROUP_COLLAPSE_THRESHOLD`. -/
structure FilterConfig where
  search_text : String
  filters : ShowFilters
  collapse_long_lines : Bool
  collapse_repeated_tags : Bool
  threshold : Nat
deriving DecidableEq, Repr

/-- The loop state of `apply_filter` (src lines 824-832): the output list
built so far and the pending run (`current_tag`, `current_message_pattern`,
`tag_group`, `tag_count`). -/
structure CollapseState where
  filtered_logs : List LogInfo
  current_tag : Option String
  current_message_pattern : Option String
  tag_group : List LogInfo
  tag_count : Nat
deriving DecidableEq, Repr

/-- Python truthiness of an optional string: `None` and `""` are falsy. -/
def optTruthy : Option String → Bool
  | none => false
  | some s => decide (s ≠ "")

/-- The `is_same_group` computation of `apply_filter` (src lines 854-859):
`line_tag and line_tag == current_tag`, or else
`not line_tag and current_message_pattern and
content_clean == current_message_pattern`. -/
def isSameGroup (line_tag current_tag current_pat : Option String)
    (content_clean : String) : Bool :=
  if optTruthy line_tag && decide (line_tag = current_tag) then true
  else if !optTruthy line_tag && optTruthy current_pat
      && decide (some content_clean = current_pat) then true
  else false

/-- The synthetic group header built by `apply_filter` (src lines 869-874
and 899-904): `content = f"📁 [{current_tag or '同じメッセージ'}]
{tag_count} 件のログ"`, `tags = ["group_header"]`. -/
def mkHeader (current_tag : Option String) (n : Nat) : LogInfo :=
  { timestamp := ""
    level := ""
    content :=
      "📁 [" ++
        (match current_tag with
         | some t => if t = "" then "同じメッセージ" else t
         | none => "同じメッセージ") ++
        "] " ++ toString n ++ " 件のログ"
    tags := ["group_header"] }

/-- Flushing the pending run inside the loop (src lines 866-884): a header
plus the members when the run length reached the threshold, otherwise the
members alone. -/
def flushGroup (cfg : FilterConfig) (st : CollapseState) : List LogInfo :=
  if cfg.threshold ≤ st.tag_count then
    st.filtered_logs ++ [mkHeader st.current_tag st.tag_count] ++ st.tag_group
  else if st.tag_group ≠ [] then
    st.filtered_logs ++ st.tag_group
  else
    st.filtered_logs

/-- One surviving line of the `apply_filter` loop body (src lines 843-895,
after the two `continue` filters). -/
def stepLine (cfg : FilterConfig) (st : CollapseState) (line : String) :
    CollapseState :=
  let log_info := parse_log_line line cfg.collapse_long_lines
  if cfg.collapse_repeated_tags then
    let line_tag := findTag line
    let content_clean := contentClean log_info.content
    if isSameGroup line_tag st.current_tag st.current_message_pattern
        content_clean then
      { st with
        tag_group := st.tag_group ++ [log_info]
        tag_count := st.tag_count + 1 }
    else
      { filtered_logs := flushGroup cfg st
        current_tag := line_tag
        current_message_pattern :=
          if optTruthy line_tag then none else some content_clean
        tag_group := [log_info]
        tag_count := 1 }
  else
    { st with filtered_logs := st.filtered_logs ++ [log_info] }

/-- The initial loop state of `apply_filter` (src lines 824-832). -/
def initState : CollapseState :=
  { filtered_logs := []
    current_tag := none
    current_message_pattern := none
    tag_group := []
    tag_count := 0 }

/-- The handling of the last pending run after the loop
(src lines 897-911). -/
def finalFlush (cfg : FilterConfig) (st : CollapseState) : List LogInfo :=
  if cfg.collapse_repeated_tags && decide (cfg.threshold ≤ st.tag_count) then
    st.filtered_logs ++ [mkHeader st.current_tag st.tag_count] ++ st.tag_group
  else if st.tag_group ≠ [] then
    st.filtered_logs ++ st.tag_group
  else
    st.filtered_logs

/-- The two per-line filters of `apply_filter` (src lines 835-841): the
case-insensitive raw-line search (`search_text and search_text not in
line.lower()`) and the level filter (`LogParser.should_show_log`).
The search text is lowercased once before the loop (src line 811). -/
def linePasses (cfg : FilterConfig) (line : String) : Bool :=
  let s := lowerStr cfg.search_text
  (decide (s = "") || strContains (lowerStr line) s)
    && should_show_log line cfg.filters

/-- `apply_filter` (src lines 805-922): walk `current_logs`, skip lines
that fail the search or level filter, parse the survivors and run the
repeated-tag collapsing state machine, then flush the last pending run.
Returns the display list `filtered_logs`. -/
def apply_filter (current_logs : List String) (cfg : FilterConfig) :
    List LogInfo :=
  finalFlush cfg
    (current_logs.foldl
      (fun st line => if linePasses cfg line then stepLine cfg st line else st)
      initState)

/-- The collapse pass alone, with no per-line filtering: the same loop body
applied to every line.  `apply_filter` is proved equal to this pass composed
with `List.filter (linePasses cfg)`. -/
def collapseAll (cfg : FilterConfig) (l : List String) : List LogInfo :=
  finalFlush cfg (l.foldl (stepLine cfg) initState)

/-! ## The run/signature view of the collapse pass -/

/-- The signature of a surviving line: the bracketed tag when present,
otherwise the digit-normalized content key (spec §4.5, Glossary). -/
inductive Sig where
  | tag (t : String)
  | pat (p : String)
deriving DecidableEq, Repr

/-- The signature of a raw line, for a given `collapse_long_lines`
setting. -/
def sigOf (collapse_long : Bool) (line : String) : Sig :=
  match findTag line with
  | some t => Sig.tag t
  | none => Sig.pat (contentClean (parse_log_line line collapse_long).content)

/-- The `current_tag` field associated with a signature. -/
def sigTag : Sig → Option String
  | Sig.tag t => some t
  | Sig.pat _ => none

/-- The `current_message_pattern` field associated with a signature. -/
def sigPat : Sig → Option String
  | Sig.tag _ => none
  | Sig.pat p => some p

/-- A signature reachable through the filters: a tag is non-empty (the
regex requires at least one character) and a pattern key is non-empty. -/
def goodSig : Sig → Prop
  | Sig.tag t => t ≠ ""
  | Sig.pat p => p ≠ ""

/-- Grouping a list into maximal runs of consecutive equal signatures:
`cur` accumulates the current run in reverse, `s` is its signature. -/
def chunkRunsAux (sig : String → Sig) (s : Sig) (cur : List String) :
    List String → List (List String)
  | [] => [cur.reverse]
  | y :: ys =>
    if sig y = s then chunkRunsAux sig s (y :: cur) ys
    else cur.reverse :: chunkRunsAux sig (sig y) [y] ys

/-- The maximal runs of consecutive equal-signature lines. -/
def chunkRuns (sig : String → Sig) : List String → List (List String)
  | [] => []
  | x :: xs => chunkRunsAux sig (sig x) [x] xs

/-- Emitting one run (spec §4.5): a header followed by all members when the
run length reaches the threshold, the members alone otherwise. -/
def emitRun (cfg : FilterConfig) : List String → List LogInfo
  | [] => []
  | y :: ys =>
    if cfg.threshold ≤ (y :: ys).length then
      mkHeader (sigTag (sigOf cfg.collapse_long_lines y)) (y :: ys).length
        :: (y :: ys).map (fun l => parse_log_line l cfg.collapse_long_lines)
    else
      (y :: ys).map (fun l => parse_log_line l cfg.collapse_long_lines)

/-- Is a record a synthetic group header? -/
def isHeader (r : LogInfo) : Bool :=
  "group_header" ∈ r.tags

/-- Deleting the synthetic group headers from a display list. -/
def removeHeaders (l : List LogInfo) : List LogInfo :=
  l.filter (fun r => !isHeader r)

/-- The display-list well-formedness of spec §3: a display list is a
sequence of plain member records and collapsed segments, where each
collapsed segment is a synthetic header whose stated count equals the
number of member records immediately following it in its run, and no
header appears among those members. -/
inductive GoodDisplay : List LogInfo → Prop where
  | nil : GoodDisplay []
  | member (r : LogInfo) (rest : List LogInfo) :
      isHeader r = false → GoodDisplay rest → GoodDisplay (r :: rest)
  | header (tag : Option String) (ms rest : List LogInfo) :
      (∀ m ∈ ms, isHeader m = false) → GoodDisplay rest →
      GoodDisplay (mkHeader tag ms.length :: (ms ++ rest))

/-- The loop state of the collapse pass in the middle of a run: `acc` is the
output built so far, `s` the signature of the pending run, `grp` its parsed
members and `n` its length. -/
def stateFor (acc : List LogInfo) (s : Sig) (grp : List LogInfo) (n : Nat) :
    CollapseState :=
  { filtered_logs := acc
    current_tag := sigTag s
    current_message_pattern := sigPat s
    tag_group := grp
    tag_count := n }

/-! ## Notifications, groups and the viewer state

Translated from `src/vrchat_log_viewer_modular.pyw` (`load_log_file` lines
458-552, `check_for_updates` lines 568-596, `update_group_list` lines
600-621, `update_message_list` lines 658-698, `filter_messages` lines
700-752).  The notification extractor and group organizer live in the
missing `utils.py` and are modelled from the spec. -/

/-- Modelled from the spec: the `NotificationData` record of the missing
`models.py` (spec §3 NotificationRecord): `id`, `group_id`, `date` (receipt
timestamp), `created_at` (payload timestamp), `message`, and the optional
payload-derived group name used for display-name resolution (spec §4.4). -/
structure NotificationData where
  id : String
  group_id : String
  date : String
  created_at : String
  message : String
  group_name : String
deriving DecidableEq, Repr

/-- Association-list lookup with string keys. -/
def lookupStr : List (String × String) → String → Option String
  | [], _ => none
  | (k, v) :: rest, key => if k = key then some v else lookupStr rest key

/-- Modelled from the spec: the fixed structural marker that delimits a
serialized notification payload inside a raw log line (spec §4.3).  The
concrete marker text lives in the missing `utils.py`. -/
def notifMarker : String := "Received Notification:"

/-- The characters after the first occurrence of `marker`, when present. -/
def afterMarker (marker : List Char) : List Char → Option (List Char)
  | [] => none
  | hay@(_ :: rest) =>
    if startsWithChars hay marker then some (hay.drop marker.length)
    else afterMarker marker rest

/-- Splitting a payload on the `'|'` field separator. -/
def splitBar : List Char → List (List Char)
  | [] => [[]]
  | c :: rest =>
    if c = '|' then [] :: splitBar rest
    else
      match splitBar rest with
      | [] => [[c]]
      | g :: gs => (c :: g) :: gs

/-- The `i`-th payload field, defaulting to `""` when absent (spec §4.3:
absent optional fields never fail extraction). -/
def getField (fields : List (List Char)) (i : Nat) : String :=
  match fields.get? i with
  | some cs => String.mk cs
  | none => ""

/-- Modelled from the spec: decoding one raw line into a notification
(spec §4.3).  The missing `utils.py` scans for the structural marker and
decodes the JSON-like payload, skipping malformed payloads silently; the
payload syntax is modelled as `'|'`-separated fields
`id|group_id|created_at|message|group_name` after the marker, with an
empty payload treated as malformed, and the line's bracketed leading
timestamp as receipt date. -/
def parseNotifLine (line : String) : Option NotificationData :=
  match afterMarker notifMarker.data line.data with
  | none => none
  | some payload =>
    if payload = [] then none
    else
      some
        { id := getField (splitBar payload) 0
          group_id := getField (splitBar payload) 1
          date :=
            match splitTimestamp line.data with
            | some (ts, _) => String.mk ts
            | none => ""
          created_at := getField (splitBar payload) 2
          message := getField (splitBar payload) 3
          group_name := getField (splitBar payload) 4 }

/-- Modelled from the spec: `NotificationParser.parse_notifications(text)`
of the missing `utils.py` (spec §4.3): scan the raw text in file order and
extract one notification per matched line. -/
def parse_notifications (text : String) : List NotificationData :=
  (splitKeepEnds text).filterMap parseNotifLine

/-- Modelled from the spec: the per-group record held in `self.groups`
(spec §3 GroupRecord): display `name` and the insertion-ordered
`messages`. -/
structure GroupInfo where
  name : String
  messages : List NotificationData
deriving DecidableEq, Repr

/-- Modelled from the spec: display-name resolution (spec §4.4): explicit
override, else the payload-derived name when present, else the raw
`group_id`. -/
def resolveGroupName (overrides : List (String × String))
    (n : NotificationData) : String :=
  match lookupStr overrides n.group_id with
  | some v => v
  | none => if n.group_name ≠ "" then n.group_name else n.group_id

/-- One step of grouping: append the notification to its group's messages,
creating the group at the end of the index when first seen. -/
def addNotifToGroups (overrides : List (String × String))
    (acc : List (String × GroupInfo)) (n : NotificationData) :
    List (String × GroupInfo) :=
  if acc.any (fun g => g.1 = n.group_id) then
    acc.map (fun g =>
      if g.1 = n.group_id then
        (g.1, { g.2 with messages := g.2.messages ++ [n] })
      else g)
  else
    acc ++ [(n.group_id,
      { name := resolveGroupName overrides n, messages := [n] })]

/-- Modelled from the spec:
`GroupUtils.organize_notifications_by_group(notifications, group_names)` of
the missing `utils.py` (spec §4.4): group notifications by `group_id`,
preserving file order within each group's messages, groups ordered by
first observation. -/
def organize_notifications_by_group (notifs : List NotificationData)
    (overrides : List (String × String)) : List (String × GroupInfo) :=
  notifs.foldl (addNotifToGroups overrides) []

/-- The mutable viewer state touched by `load_log_file` and
`check_for_updates`: the in-memory line list, the extracted notifications,
the group index, the persisted name overrides, the last observed file size
and the installed display list. -/
structure ViewerState where
  current_logs : List String
  notifications : List NotificationData
  groups : List (String × GroupInfo)
  group_names : List (String × String)
  last_file_size : Nat
  display : List LogInfo
deriving DecidableEq, Repr

/-- `load_log_file(log_file, append)` (src lines 458-552), on the decoded
file content: split into lines keeping ends, extend or replace
`current_logs`, slice the "new content" (computed from the line list
*after* it was extended, as in the source), extract notifications from it,
rebuild the group index, and refresh the display only on a full load (the
append branch calls neither `apply_filter` nor `update_message_list`). -/
def load_log_file (st : ViewerState) (content : String) (append : Bool)
    (cfg : FilterConfig) : ViewerState :=
  let lines := splitKeepEnds content
  let current_logs' :=
    if append then st.current_logs ++ lines.drop st.current_logs.length
    else lines
  let new_content :=
    if append then String.intercalate "\n" (lines.drop current_logs'.length)
    else content
  let new_notifications := parse_notifications new_content
  let notifications' :=
    if append then st.notifications ++ new_notifications
    else new_notifications
  { st with
    current_logs := current_logs'
    last_file_size := fileSize content
    notifications := notifications'
    groups := organize_notifications_by_group notifications' st.group_names
    display := if append then st.display else apply_filter current_logs' cfg }

/-- The tail check `check_for_updates` (src lines 568-596), with
auto-update on and the file present: compare the current size with the
last known size; on any difference perform an incremental
`load_log_file(..., append=True)`, otherwise do nothing. -/
def check_for_updates (st : ViewerState) (content : String)
    (cfg : FilterConfig) : ViewerState :=
  if fileSize content ≠ st.last_file_size then
    load_log_file st content true cfg
  else
    st

/-! ## Sorting (Python's stable `sorted(..., reverse=True)`) -/

/-- Insertion into a descending-sorted list: `x` is placed before the first
element not strictly greater than it, so elements equal under the key keep
their original relative order. -/
def insertByDesc {α : Type} (lt : α → α → Bool) (x : α) : List α → List α
  | [] => [x]
  | y :: ys => if lt x y then y :: insertByDesc lt x ys else x :: y :: ys

/-- Stable descending insertion sort: the extensional behavior of Python's
stable `sorted(..., key=k, reverse=True)`, whose output is determined
uniquely by sortedness and stability. -/
def sortByDesc {α : Type} (lt : α → α → Bool) : List α → List α
  | [] => []
  | x :: xs => insertByDesc lt x (sortByDesc lt xs)

/-- The message count of one group entry. -/
def groupCount (g : String × GroupInfo) : Nat :=
  g.2.messages.length

/-- The sorted group sequence of `update_group_list` (src lines 605-609):
`sorted(self.groups.items(), key=lambda x: len(x[1]['messages']),
reverse=True)` with Python's stable sort. -/
def sorted_groups (groups : List (String × GroupInfo)) :
    List (String × GroupInfo) :=
  sortByDesc (fun a b => decide (groupCount a < groupCount b)) groups

/-- The selector label of one group (src line 613). -/
def groupLabel (g : String × GroupInfo) : String :=
  g.2.name ++ " (" ++ toString g.2.messages.length ++ ")"

/-- `update_group_list` (src lines 600-621): the selector entries, headed
by the all-groups entry, in message-count-descending stable order. -/
def update_group_list (groups : List (String × GroupInfo)) : List String :=
  "すべてのグループ" :: (sorted_groups groups).map groupLabel

/-- `update_message_list` (src lines 658-698) on the selected messages:
`sorted(messages, key=lambda x: x.date, reverse=True)` with Python's
stable sort, installed as `current_displayed_messages`. -/
def update_message_list (messages : List NotificationData) :
    List NotificationData :=
  sortByDesc (fun a b => strLt a.date b.date) messages

/-- `filter_messages` (src lines 700-752) on the selected messages: with
empty (lowercased) search text it defers to `update_message_list`;
otherwise it keeps the messages whose lowercased body contains the search
text, in their original order, with no date sort. -/
def filter_messages (messages : List NotificationData) (search_raw : String) :
    List NotificationData :=
  if lowerStr search_raw = "" then update_message_list messages
  else
    messages.filter
      (fun n => strContains (lowerStr n.message) (lowerStr search_raw))

/-! ## Concrete fixtures used by the witnesses -/

/-- All four level check-boxes on. -/
def demoFilters : ShowFilters :=
  { error := true, warning := true, debug := true, info := true }

/-- A demonstration filter configuration: no search text, truncation and
collapsing on, threshold 3. -/
def cfgDemo : FilterConfig :=
  { search_text := "", filters := demoFilters, collapse_long_lines := true,
    collapse_repeated_tags := true, threshold := 3 }

/-- A small raw-line fixture with a collapsible tagged run. -/
def demoLines : List String :=
  ["[Network] error a", "[Network] error b", "[Network] error c",
   "error one 1", "warning two 2"]

/-- The empty viewer state before any load. -/
def demoState : ViewerState :=
  { current_logs := [], notifications := [], groups := [], group_names := [],
    last_file_size := 0, display := [] }

/-- The initial file content of the tailing fixtures. -/
def demoOld : String := "[2024-01-01 10:00:00] info hello\n"

/-- The appended suffix of the tailing fixtures; it carries one embedded
notification. -/
def demoSuffix : String :=
  "[2024-01-01 10:05:00] Received Notification:n1|g1|2024|hi there\n"

/-- The grown file content: the old content plus the appended suffix. -/
def demoGrown : String := demoOld ++ demoSuffix

/-- The state after a full load of the initial content. -/
def stLoaded : ViewerState := load_log_file demoState demoOld false cfgDemo

/-- A shrunken file content, strictly smaller than the loaded size. -/
def demoShrunk : String := "short\n"

/-- A long line whose search match lies beyond the truncation threshold:
an `error`-level line of more than 200 characters ending in `findme`. -/
def longLine : String :=
  "error " ++ String.mk (List.replicate 200 'a') ++ " findme"

/-- The search configuration of the truncation fixture. -/
def cfgSearch : FilterConfig :=
  { search_text := "FINDME", filters := demoFilters,
    collapse_long_lines := true, collapse_repeated_tags := true,
    threshold := 3 }

/-- Two messages whose receipt dates are in file order but out of
descending order. -/
def demoMsgs : List NotificationData :=
  [{ id := "1", group_id := "g", date := "2024-01-01", created_at := "",
     message := "m1", group_name := "" },
   { id := "2", group_id := "g", date := "2024-01-02", created_at := "",
     message := "m2", group_name := "" }]

/-! ## Sanity checks of the embedded primitives -/

example : splitKeepEnds "a\nb" = ["a\n", "b"] := by decide
example : splitKeepEnds "a\nb\n" = ["a\n", "b\n"] := by decide
example : splitKeepEnds "" = [] := by decide
example : strContains "hello world" "o w" = true := by decide
example : strContains "hello" "" = true := by decide
example : strContains "hello" "z" = false := by decide
example : lowerStr "AbC" = "abc" := by decide
example : findTag "[2024-01-01 10:00:00] [Error] boom" = some "Error" := by decide
example : findTag "no tag here 2024-01-01" = none := by decide
example : findTag "[ [Network]]" = some "Network" := by decide
example : contentClean "id 123 of 456x" = "id N of Nx" := by decide
example :
    parse_log_line "[2024-01-01 10:00:00] [Error] boom" true
      = { timestamp := "2024-01-01 10:00:00", level := "Error",
          content := "boom", tags := [] } := by decide
example : levelOf "all is Fine" = "Unknown" := by decide
example : levelOf "a WARNING then an error" = "Warning" := by decide

/-! ## Generic list lemmas -/

theorem foldl_guard_filter {α β : Type} (p : α → Bool) (f : β → α → β) :
    ∀ (l : List α) (init : β),
      (l.filter p).foldl f init
        = l.foldl (fun st x => if p x then f st x else st) init
  | [], _ => rfl
  | x :: xs, init => by
    rw [List.filter_cons]
    by_cases h : p x = true
    · rw [if_pos h, List.foldl_cons, List.foldl_cons, if_pos h,
        foldl_guard_filter p f xs]
    · rw [if_neg h, List.foldl_cons, if_neg h, foldl_guard_filter p f xs]

theorem dropWhile_suffix {α : Type} (p : α → Bool) (l : List α) :
    l.dropWhile p <:+ l := by
  induction l with
  | nil => exact List.suffix_refl _
  | cons a t ih =>
    rw [List.dropWhile_cons]
    split
    · exact ih.trans (List.suffix_cons a t)
    · exact List.suffix_refl _

theorem dropWhile_dropWhile_self {α : Type} (p : α → Bool) (l : List α) :
    (l.dropWhile p).dropWhile p = l.dropWhile p := by
  induction l with
  | nil => rfl
  | cons a t ih =>
    rw [List.dropWhile_cons]
    split
    · exact ih
    · rename_i h
      rw [List.dropWhile_cons, if_neg h]

theorem drop_takeWhile_length {α : Type} (p : α → Bool) (l : List α) :
    l.drop (l.takeWhile p).length = l.dropWhile p := by
  induction l with
  | nil => rfl
  | cons a t ih =>
    rw [List.takeWhile_cons, List.dropWhile_cons]
    by_cases h : p a = true
    · rw [if_pos h, if_pos h, List.length_cons, List.drop_succ_cons, ih]
    · rw [if_neg h, if_neg h, List.length_nil, List.drop_zero]

/-! ## Strings and character facts -/

theorem string_mk_ne_empty {cs : List Char} (h : cs ≠ []) :
    String.mk cs ≠ "" := by
  intro he
  exact h (by simpa using congrArg String.data he)

theorem truncateContent_ne_empty (b : Bool) {s : String} (h : s ≠ "") :
    truncateContent b s ≠ "" := by
  unfold truncateContent
  split
  · intro he
    have hd := congrArg String.data he
    rw [String.data_append] at hd
    simp at hd
  · exact h

theorem digitNormAux_false_ne_nil {c : Char} {rest : List Char} :
    digitNormAux false (c :: rest) ≠ [] := by
  simp only [digitNormAux]
  split <;> simp

theorem contentClean_ne_empty {s : String} (h : s ≠ "") :
    contentClean s ≠ "" := by
  unfold contentClean
  apply string_mk_ne_empty
  have hd : s.data ≠ [] := fun he => h (String.ext (by simpa using he))
  unfold digitNorm
  cases hc : s.data.take 100 with
  | nil =>
    rcases List.take_eq_nil_iff.mp hc with h' | h'
    · exact absurd h' (by decide)
    · exact absurd h' hd
  | cons c t => exact digitNormAux_false_ne_nil

theorem findTagAux_ne_empty {t : String} :
    ∀ {cs : List Char}, findTagAux cs = some t → t ≠ "" := by
  intro cs
  induction cs with
  | nil => intro h; simp [findTagAux] at h
  | cons c rest ih =>
    intro h
    unfold findTagAux at h
    split at h
    · split at h
      · rename_i hcond
        have hrun : (rest.takeWhile tagChar).isEmpty = false := by
          rcases Bool.and_eq_true .. |>.mp hcond with ⟨h1, _⟩
          simpa using h1
        injection h with h
        subst h
        exact string_mk_ne_empty (by simpa [List.isEmpty_iff] using hrun)
      · exact ih h
    · exact ih h

theorem findTag_ne_empty {line : String} {t : String}
    (h : findTag line = some t) : t ≠ "" :=
  findTagAux_ne_empty h

/-! ## A surviving untagged line has a non-empty content key

The chain of lemmas below shows that any line accepted by
`should_show_log` contains a letter, while an untagged line whose parsed
content is empty consists only of brackets, timestamp characters and
spaces — so the digit-normalized content key of a surviving line is never
the empty string. -/

theorem levelOfAux_letter {cs : List Char} (h : levelOfAux cs ≠ "Unknown") :
    ∃ d ∈ cs, 'a' ≤ d ∧ d ≤ 'z' := by
  induction cs with
  | nil => simp [levelOfAux] at h
  | cons c rest ih =>
    by_cases h1 : startsWithChars (c :: rest) errK = true
    · simp [startsWithChars, errK] at h1
      exact ⟨c, List.mem_cons_self c rest, by rw [h1.1]; exact ⟨by decide, by decide⟩⟩
    · by_cases h2 : startsWithChars (c :: rest) warnK = true
      · simp [startsWithChars, warnK] at h2
        exact ⟨c, List.mem_cons_self c rest, by rw [h2.1]; exact ⟨by decide, by decide⟩⟩
      · by_cases h3 : startsWithChars (c :: rest) infoK = true
        · simp [startsWithChars, infoK] at h3
          exact ⟨c, List.mem_cons_self c rest, by rw [h3.1]; exact ⟨by decide, by decide⟩⟩
        · by_cases h4 : startsWithChars (c :: rest) dbgK = true
          · simp [startsWithChars, dbgK] at h4
            exact ⟨c, List.mem_cons_self c rest, by rw [h4.1]; exact ⟨by decide, by decide⟩⟩
          · have hrest : levelOfAux rest ≠ "Unknown" := by
              unfold levelOfAux at h
              rw [if_neg h1, if_neg h2, if_neg h3, if_neg h4] at h
              exact h
            obtain ⟨d, hd, hr⟩ := ih hrest
            exact ⟨d, List.mem_cons_of_mem c hd, hr⟩

theorem should_show_letter {line : String} {f : ShowFilters}
    (h : should_show_log line f = true) :
    ∃ c ∈ line.data, 'a' ≤ lowerChar c ∧ lowerChar c ≤ 'z' := by
  have hlv : levelOfAux (line.data.map lowerChar) ≠ "Unknown" := by
    intro he
    unfold should_show_log levelOf at h
    rw [he] at h
    rw [if_neg (by decide), if_neg (by decide), if_neg (by decide),
      if_neg (by decide)] at h
    exact Bool.noConfusion h
  obtain ⟨d, hd, hr⟩ := levelOfAux_letter hlv
  obtain ⟨c, hc, rfl⟩ := List.mem_map.mp hd
  exact ⟨c, hc, hr⟩

theorem tsChar_not_letter {c : Char} (h : tsChar c = true) :
    ¬('a' ≤ lowerChar c ∧ lowerChar c ≤ 'z') := by
  unfold tsChar at h
  simp only [Bool.or_eq_true, decide_eq_true_eq] at h
  rcases h with ((((h | h) | h) | h) | h) | h
  · simp only [Char.isDigit, Bool.and_eq_true, decide_eq_true_eq, ge_iff_le] at h
    have hc9 : c ≤ '9' := Char.le_def.mpr h.2
    have hle : lowerChar c = c := by
      unfold lowerChar
      rw [if_neg]
      intro hA
      exact absurd (le_trans hA.1 hc9) (by decide)
    rw [hle]
    intro ha
    exact absurd (le_trans ha.1 hc9) (by decide)
  · rw [h]; decide
  · rw [h]; decide
  · rw [h]; decide
  · rw [h]; decide
  · rw [h]; decide

theorem splitTimestamp_inv {cs ts rest : List Char}
    (h : splitTimestamp cs = some (ts, rest)) :
    ∃ r0 : List Char, cs = '[' :: r0
      ∧ ts = r0.takeWhile tsChar
      ∧ r0.takeWhile tsChar ≠ []
      ∧ (r0.drop (r0.takeWhile tsChar).length).head? = some ']'
      ∧ rest = r0.drop ((r0.takeWhile tsChar).length + 1) := by
  cases cs with
  | nil => simp [splitTimestamp] at h
  | cons c r0 =>
    simp only [splitTimestamp] at h
    split at h
    · rename_i hc
      split at h
      · rename_i hcond
        rcases Bool.and_eq_true .. |>.mp hcond with ⟨h1, h2⟩
        injection h with h
        rw [Prod.mk.injEq] at h
        exact ⟨r0, by rw [hc], h.1.symm, by simpa [List.isEmpty_iff] using h1,
          by simpa using h2, h.2.symm⟩
      · exact absurd h (by simp)
    · exact absurd h (by simp)

theorem no_bracket_of_findTagAux_none :
    ∀ {cs : List Char}, findTagAux cs = none →
      ∀ {es : List Char}, ('[' :: es) <:+ cs →
        (!(es.takeWhile tagChar).isEmpty
          && (es.drop (es.takeWhile tagChar).length).head? = some ']') = false := by
  intro cs
  induction cs with
  | nil =>
    intro _ es hsuf
    have := hsuf.length_le
    simp at this
  | cons c rest ih =>
    intro h es hsuf
    have hrest : findTagAux rest = none := by
      unfold findTagAux at h
      split at h
      · split at h
        · exact absurd h (by simp)
        · exact h
      · exact h
    rcases List.suffix_cons_iff.mp hsuf with heq | hsuf'
    · injection heq with hc htl
      subst htl
      unfold findTagAux at h
      rw [if_pos hc.symm] at h
      split at h
      · exact absurd h (by simp)
      · rename_i hcond
        exact Bool.eq_false_iff.mpr hcond
    · exact ih hrest hsuf'

theorem stripLevelMarker_of_no_bracket {cs : List Char}
    (h : ∀ es : List Char, cs = '[' :: es →
      (!(es.takeWhile tagChar).isEmpty
        && (es.drop (es.takeWhile tagChar).length).head? = some ']') = false) :
    stripLevelMarker cs = cs := by
  cases cs with
  | nil => rfl
  | cons c rest =>
    simp only [stripLevelMarker]
    split
    · rename_i hc
      rw [if_neg]
      intro hcond
      have hfalse := h rest (by rw [hc])
      rcases Bool.and_eq_true .. |>.mp hcond with ⟨h1, -⟩
      rw [h1] at hfalse
      exact Bool.noConfusion hfalse
    · rfl

theorem parse_content_ne_empty {line : String} {f : ShowFilters} {b : Bool}
    (hshow : should_show_log line f = true) (htag : findTag line = none) :
    (parse_log_line line b).content ≠ "" := by
  obtain ⟨c0, hc0, hr0⟩ := should_show_letter hshow
  cases hts : splitTimestamp line.data with
  | none =>
    simp only [parse_log_line, hts]
    apply truncateContent_ne_empty
    intro he
    rw [he] at hc0
    simp at hc0
  | some p =>
    obtain ⟨ts, rest⟩ := p
    simp only [parse_log_line, hts]
    apply truncateContent_ne_empty
    apply string_mk_ne_empty
    obtain ⟨r0, hcs, -, hrun, hhead, hrest⟩ := splitTimestamp_inv hts
    have hsuf : rest.dropWhile (· = ' ') <:+ line.data := by
      refine (dropWhile_suffix _ rest).trans ?_
      rw [hcs, hrest]
      exact (List.drop_suffix _ r0).trans (List.suffix_cons '[' r0)
    have hstrip : stripLevelMarker (rest.dropWhile (· = ' '))
        = rest.dropWhile (· = ' ') := by
      apply stripLevelMarker_of_no_bracket
      intro es hes
      apply no_bracket_of_findTagAux_none htag
      rw [← hes]
      exact hsuf
    rw [hstrip, dropWhile_dropWhile_self]
    rw [Ne, List.dropWhile_eq_nil_iff]
    intro hall
    -- decompose the line into bracket, timestamp run, bracket and rest
    have hsplit : r0 = r0.takeWhile tsChar ++ (']' :: rest) := by
      have h1 : r0.drop (r0.takeWhile tsChar).length = r0.dropWhile tsChar :=
        drop_takeWhile_length tsChar r0
      have h2 : r0.dropWhile tsChar = ']' :: rest := by
        rw [← h1]
        cases hd : r0.drop (r0.takeWhile tsChar).length with
        | nil => rw [hd] at hhead; simp at hhead
        | cons x xs =>
          rw [hd] at hhead
          simp at hhead
          rw [hhead]
          congr 1
          rw [hrest, ← List.drop_drop]  -- rest = drop 1 (drop len r0)
          rw [hd]
          simp
      rw [← h2, List.takeWhile_append_dropWhile]
    rw [hcs, hsplit] at hc0
    rcases List.mem_cons.mp hc0 with hc | hc
    · rw [hc] at hr0; exact absurd hr0 (by decide)
    · rcases List.mem_append.mp hc with hc | hc
      · exact tsChar_not_letter (List.mem_takeWhile_imp hc) hr0
      · rcases List.mem_cons.mp hc with hc | hc
        · rw [hc] at hr0; exact absurd hr0 (by decide)
        · have : c0 = ' ' := by simpa using hall c0 hc
          rw [this] at hr0; exact absurd hr0 (by decide)

theorem goodSig_of_passes {cfg : FilterConfig} {line : String}
    (h : linePasses cfg line = true) :
    goodSig (sigOf cfg.collapse_long_lines line) := by
  have hshow : should_show_log line cfg.filters = true := by
    simp only [linePasses, Bool.and_eq_true] at h
    exact h.2
  unfold sigOf
  cases htag : findTag line with
  | some t =>
    simpa [goodSig] using findTag_ne_empty htag
  | none =>
    simpa [goodSig] using
      contentClean_ne_empty (parse_content_ne_empty (f := cfg.filters) hshow htag)

/-! ## The collapse pass as a run-by-run emission -/

theorem apply_filter_eq_collapseAll (lines : List String) (cfg : FilterConfig) :
    apply_filter lines cfg = collapseAll cfg (lines.filter (linePasses cfg)) := by
  unfold apply_filter collapseAll
  rw [foldl_guard_filter]

theorem stepLine_stateFor (cfg : FilterConfig)
    (hc : cfg.collapse_repeated_tags = true)
    {s : Sig} (hs : goodSig s) (acc grp : List LogInfo) (n : Nat) (y : String) :
    stepLine cfg (stateFor acc s grp n) y =
      if sigOf cfg.collapse_long_lines y = s then
        stateFor acc s (grp ++ [parse_log_line y cfg.collapse_long_lines]) (n + 1)
      else
        stateFor (flushGroup cfg (stateFor acc s grp n))
          (sigOf cfg.collapse_long_lines y)
          [parse_log_line y cfg.collapse_long_lines] 1 := by
  cases hy : findTag y with
  | some t =>
    have ht : t ≠ "" := findTag_ne_empty hy
    cases s with
    | tag u =>
      by_cases htu : t = u
      · subst htu
        simp [stepLine, hc, hy, isSameGroup, optTruthy, stateFor, sigOf,
          sigTag, sigPat, ht]
      · simp [stepLine, hc, hy, isSameGroup, optTruthy, stateFor, sigOf,
          sigTag, sigPat, ht, htu]
    | pat p =>
      simp [stepLine, hc, hy, isSameGroup, optTruthy, stateFor, sigOf,
        sigTag, sigPat, ht]
  | none =>
    cases s with
    | tag u =>
      simp [stepLine, hc, hy, isSameGroup, optTruthy, stateFor, sigOf,
        sigTag, sigPat]
    | pat p =>
      have hp : p ≠ "" := hs
      by_cases hpc :
          contentClean (parse_log_line y cfg.collapse_long_lines).content = p
      · simp [stepLine, hc, hy, isSameGroup, optTruthy, stateFor, sigOf,
          sigTag, sigPat, hp, hpc]
      · simp [stepLine, hc, hy, isSameGroup, optTruthy, stateFor, sigOf,
          sigTag, sigPat, hp, hpc]

theorem flushGroup_stateFor (cfg : FilterConfig) (acc : List LogInfo)
    {s : Sig} {r : List String} (hr : r ≠ [])
    (hsig : ∀ y ∈ r, sigOf cfg.collapse_long_lines y = s) :
    flushGroup cfg
        (stateFor acc s
          (r.map (fun x => parse_log_line x cfg.collapse_long_lines)) r.length)
      = acc ++ emitRun cfg r := by
  cases r with
  | nil => exact absurd rfl hr
  | cons y ys =>
    have hy : sigOf cfg.collapse_long_lines y = s :=
      hsig y (List.mem_cons_self y ys)
    by_cases hth : cfg.threshold ≤ (y :: ys).length
    all_goals simp only [List.length_cons] at hth
    · simp [flushGroup, emitRun, stateFor, hth, hy.symm]
    · simp [flushGroup, emitRun, stateFor, hth, hy.symm]

theorem finalFlush_stateFor (cfg : FilterConfig)
    (hc : cfg.collapse_repeated_tags = true) (acc : List LogInfo)
    {s : Sig} {r : List String} (hr : r ≠ [])
    (hsig : ∀ y ∈ r, sigOf cfg.collapse_long_lines y = s) :
    finalFlush cfg
        (stateFor acc s
          (r.map (fun x => parse_log_line x cfg.collapse_long_lines)) r.length)
      = acc ++ emitRun cfg r := by
  cases r with
  | nil => exact absurd rfl hr
  | cons y ys =>
    have hy : sigOf cfg.collapse_long_lines y = s :=
      hsig y (List.mem_cons_self y ys)
    by_cases hth : cfg.threshold ≤ (y :: ys).length
    all_goals simp only [List.length_cons] at hth
    · simp [finalFlush, emitRun, stateFor, hth, hc, hy.symm]
    · simp [finalFlush, emitRun, stateFor, hth, hc, hy.symm]

theorem collapse_run_invariant (cfg : FilterConfig)
    (hc : cfg.collapse_repeated_tags = true) :
    ∀ (l : List String), (∀ y ∈ l, linePasses cfg y = true) →
      ∀ (r : List String) (s : Sig) (acc : List LogInfo),
        r ≠ [] →
        (∀ y ∈ r, sigOf cfg.collapse_long_lines y = s) →
        (∀ y ∈ r, linePasses cfg y = true) →
        finalFlush cfg
            (l.foldl (stepLine cfg)
              (stateFor acc s
                (r.map (fun x => parse_log_line x cfg.collapse_long_lines))
                r.length))
          = acc ++
              ((chunkRunsAux (sigOf cfg.collapse_long_lines) s r.reverse l).map
                (emitRun cfg)).flatten := by
  intro l
  induction l with
  | nil =>
    intro _ r s acc hr hsig hp
    rw [List.foldl_nil, finalFlush_stateFor cfg hc acc hr hsig]
    simp [chunkRunsAux]
  | cons y ys ih =>
    intro hl r s acc hr hsig hp
    have hy : linePasses cfg y = true := hl y (List.mem_cons_self y ys)
    have hys : ∀ z ∈ ys, linePasses cfg z = true :=
      fun z hz => hl z (List.mem_cons_of_mem y hz)
    have hgs : goodSig s := by
      obtain ⟨y0, hy0⟩ : ∃ y0, y0 ∈ r := by
        cases r with
        | nil => exact absurd rfl hr
        | cons a t => exact ⟨a, List.mem_cons_self a t⟩
      rw [← hsig y0 hy0]
      exact goodSig_of_passes (hp y0 hy0)
    rw [List.foldl_cons, stepLine_stateFor cfg hc hgs]
    by_cases hsy : sigOf cfg.collapse_long_lines y = s
    · rw [if_pos hsy]
      have hst :
          stateFor acc s
              (r.map (fun x => parse_log_line x cfg.collapse_long_lines)
                ++ [parse_log_line y cfg.collapse_long_lines]) (r.length + 1)
            = stateFor acc s
                ((r ++ [y]).map (fun x => parse_log_line x cfg.collapse_long_lines))
                (r ++ [y]).length := by
        simp
      rw [hst]
      rw [ih hys (r ++ [y]) s acc (by simp)
        (by
          intro z hz
          rcases List.mem_append.mp hz with hz | hz
          · exact hsig z hz
          · rw [List.mem_singleton.mp hz]; exact hsy)
        (by
          intro z hz
          rcases List.mem_append.mp hz with hz | hz
          · exact hp z hz
          · rw [List.mem_singleton.mp hz]; exact hy)]
      simp only [chunkRunsAux, if_pos hsy]
      rw [List.reverse_append]
      simp
    · rw [if_neg hsy, flushGroup_stateFor cfg acc hr hsig]
      have hone :
          stateFor (acc ++ emitRun cfg r) (sigOf cfg.collapse_long_lines y)
              [parse_log_line y cfg.collapse_long_lines] 1
            = stateFor (acc ++ emitRun cfg r) (sigOf cfg.collapse_long_lines y)
                ([y].map (fun x => parse_log_line x cfg.collapse_long_lines))
                [y].length := by
        simp
      rw [hone]
      rw [ih hys [y] (sigOf cfg.collapse_long_lines y) (acc ++ emitRun cfg r)
        (by simp) (by simp) (by simpa using hy)]
      simp only [chunkRunsAux, if_neg hsy]
      simp [List.append_assoc]

theorem collapseAll_chunks (cfg : FilterConfig)
    (hc : cfg.collapse_repeated_tags = true) (ht : 1 ≤ cfg.threshold)
    (l : List String) (hl : ∀ y ∈ l, linePasses cfg y = true) :
    collapseAll cfg l
      = ((chunkRuns (sigOf cfg.collapse_long_lines) l).map (emitRun cfg)).flatten := by
  cases l with
  | nil =>
    have hth : ¬ cfg.threshold ≤ 0 := by omega
    simp [collapseAll, finalFlush, initState, chunkRuns, hth]
  | cons y ys =>
    have hy : linePasses cfg y = true := hl y (List.mem_cons_self y ys)
    have hys : ∀ z ∈ ys, linePasses cfg z = true :=
      fun z hz => hl z (List.mem_cons_of_mem y hz)
    have hth : ¬ cfg.threshold ≤ 0 := by omega
    have hstep : stepLine cfg initState y
        = stateFor [] (sigOf cfg.collapse_long_lines y)
            [parse_log_line y cfg.collapse_long_lines] 1 := by
      cases hyt : findTag y with
      | some t =>
        simp [stepLine, hc, hyt, isSameGroup, optTruthy, initState, stateFor,
          sigOf, sigTag, sigPat, flushGroup, hth, findTag_ne_empty hyt]
      | none =>
        simp [stepLine, hc, hyt, isSameGroup, optTruthy, initState, stateFor,
          sigOf, sigTag, sigPat, flushGroup, hth]
    unfold collapseAll
    rw [List.foldl_cons, hstep]
    have := collapse_run_invariant cfg hc ys hys [y]
      (sigOf cfg.collapse_long_lines y) [] (by simp) (by simp)
      (by simpa using hy)
    simp only [List.map_cons, List.map_nil, List.length_cons, List.length_nil,
      List.reverse_cons, List.reverse_nil, List.nil_append] at this
    rw [this]
    simp [chunkRuns]

theorem apply_filter_chunks (cfg : FilterConfig)
    (hc : cfg.collapse_repeated_tags = true) (ht : 1 ≤ cfg.threshold)
    (lines : List String) :
    apply_filter lines cfg
      = ((chunkRuns (sigOf cfg.collapse_long_lines)
            (lines.filter (linePasses cfg))).map (emitRun cfg)).flatten := by
  rw [apply_filter_eq_collapseAll]
  exact collapseAll_chunks cfg hc ht _ (fun y hy => List.of_mem_filter hy)

/-! ## Display-list well-formedness and header removal -/

theorem GoodDisplay.append {a b : List LogInfo}
    (ha : GoodDisplay a) (hb : GoodDisplay b) : GoodDisplay (a ++ b) := by
  induction ha with
  | nil => simpa using hb
  | member r rest hr _ ih => exact GoodDisplay.member r _ hr ih
  | header tag ms rest hms _ ih =>
    rw [List.cons_append, List.append_assoc]
    exact GoodDisplay.header tag ms _ hms ih

theorem isHeader_parse (line : String) (b : Bool) :
    isHeader (parse_log_line line b) = false := by
  unfold parse_log_line isHeader
  cases splitTimestamp line.data with
  | none => simp
  | some p => obtain ⟨ts, rest⟩ := p; simp

theorem isHeader_mkHeader (tag : Option String) (n : Nat) :
    isHeader (mkHeader tag n) = true := by
  simp [isHeader, mkHeader]

theorem goodDisplay_of_members {ms : List LogInfo}
    (h : ∀ m ∈ ms, isHeader m = false) : GoodDisplay ms := by
  induction ms with
  | nil => exact GoodDisplay.nil
  | cons m rest ih =>
    exact GoodDisplay.member m rest (h m (List.mem_cons_self m rest))
      (ih fun x hx => h x (List.mem_cons_of_mem m hx))

theorem goodDisplay_emitRun (cfg : FilterConfig) (run : List String) :
    GoodDisplay (emitRun cfg run) := by
  cases run with
  | nil => exact GoodDisplay.nil
  | cons y ys =>
    have hm : ∀ m ∈ (y :: ys).map
        (fun l => parse_log_line l cfg.collapse_long_lines),
        isHeader m = false := by
      intro m hm
      obtain ⟨x, -, rfl⟩ := List.mem_map.mp hm
      exact isHeader_parse x cfg.collapse_long_lines
    simp only [emitRun]
    split
    · have := GoodDisplay.header
        (sigTag (sigOf cfg.collapse_long_lines y))
        ((y :: ys).map (fun l => parse_log_line l cfg.collapse_long_lines))
        [] hm GoodDisplay.nil
      simpa [List.length_map] using this
    · exact goodDisplay_of_members hm

theorem goodDisplay_flatten (cfg : FilterConfig) (chunks : List (List String)) :
    GoodDisplay ((chunks.map (emitRun cfg)).flatten) := by
  induction chunks with
  | nil => exact GoodDisplay.nil
  | cons c cs ih =>
    rw [List.map_cons, List.flatten_cons]
    exact (goodDisplay_emitRun cfg c).append ih

theorem removeHeaders_map_parse (cfg : FilterConfig) (run : List String) :
    removeHeaders (run.map (fun l => parse_log_line l cfg.collapse_long_lines))
      = run.map (fun l => parse_log_line l cfg.collapse_long_lines) := by
  apply List.filter_eq_self.mpr
  intro m hm
  obtain ⟨x, -, rfl⟩ := List.mem_map.mp hm
  simp [isHeader_parse]

theorem removeHeaders_emitRun (cfg : FilterConfig) (run : List String) :
    removeHeaders (emitRun cfg run)
      = run.map (fun l => parse_log_line l cfg.collapse_long_lines) := by
  cases run with
  | nil => rfl
  | cons y ys =>
    simp only [emitRun]
    split
    · show removeHeaders (_ :: _) = _
      unfold removeHeaders
      rw [List.filter_cons]
      rw [isHeader_mkHeader]
      simp only [Bool.not_true, Bool.false_eq_true, if_false]
      exact removeHeaders_map_parse cfg (y :: ys)
    · exact removeHeaders_map_parse cfg (y :: ys)

theorem removeHeaders_append (a b : List LogInfo) :
    removeHeaders (a ++ b) = removeHeaders a ++ removeHeaders b :=
  List.filter_append a b

theorem flatten_chunkRunsAux (sig : String → Sig) :
    ∀ (l : List String) (s : Sig) (cur : List String),
      (chunkRunsAux sig s cur l).flatten = cur.reverse ++ l := by
  intro l
  induction l with
  | nil => intro s cur; simp [chunkRunsAux]
  | cons y ys ih =>
    intro s cur
    unfold chunkRunsAux
    split
    · rw [ih]
      simp
    · rw [List.flatten_cons, ih]
      simp

theorem flatten_chunkRuns (sig : String → Sig) (l : List String) :
    (chunkRuns sig l).flatten = l := by
  cases l with
  | nil => rfl
  | cons y ys =>
    unfold chunkRuns
    rw [flatten_chunkRunsAux]
    simp

theorem removeHeaders_chunks (cfg : FilterConfig) (chunks : List (List String)) :
    removeHeaders ((chunks.map (emitRun cfg)).flatten)
      = chunks.flatten.map (fun l => parse_log_line l cfg.collapse_long_lines) := by
  induction chunks with
  | nil => rfl
  | cons c cs ih =>
    rw [List.map_cons, List.flatten_cons, removeHeaders_append,
      removeHeaders_emitRun, ih, List.flatten_cons, List.map_append]

theorem foldl_stepLine_off (cfg : FilterConfig)
    (hc : cfg.collapse_repeated_tags = false) :
    ∀ (l : List String) (acc : List LogInfo) (ct cmp : Option String) (n : Nat),
      l.foldl (stepLine cfg)
          { filtered_logs := acc, current_tag := ct,
            current_message_pattern := cmp, tag_group := [], tag_count := n }
        = { filtered_logs :=
              acc ++ l.map (fun x => parse_log_line x cfg.collapse_long_lines)
            current_tag := ct, current_message_pattern := cmp,
            tag_group := [], tag_count := n } := by
  intro l
  induction l with
  | nil => intro acc ct cmp n; simp
  | cons y ys ih =>
    intro acc ct cmp n
    rw [List.foldl_cons]
    have hstep : stepLine cfg
        { filtered_logs := acc, current_tag := ct,
          current_message_pattern := cmp, tag_group := [], tag_count := n } y
        = { filtered_logs := acc ++ [parse_log_line y cfg.collapse_long_lines],
            current_tag := ct, current_message_pattern := cmp,
            tag_group := [], tag_count := n } := by
      simp [stepLine, hc]
    rw [hstep, ih]
    simp

theorem apply_filter_off (cfg : FilterConfig)
    (hc : cfg.collapse_repeated_tags = false) (lines : List String) :
    apply_filter lines cfg
      = (lines.filter (linePasses cfg)).map
          (fun l => parse_log_line l cfg.collapse_long_lines) := by
  rw [apply_filter_eq_collapseAll]
  unfold collapseAll
  have hinit : initState
      = { filtered_logs := ([] : List LogInfo), current_tag := none,
          current_message_pattern := none, tag_group := [], tag_count := 0 } := rfl
  rw [hinit, foldl_stepLine_off cfg hc]
  simp [finalFlush, hc]

theorem removeHeaders_apply_filter (cfg : FilterConfig)
    (ht : 1 ≤ cfg.threshold) (lines : List String) :
    removeHeaders (apply_filter lines cfg)
      = (lines.filter (linePasses cfg)).map
          (fun l => parse_log_line l cfg.collapse_long_lines) := by
  cases hc : cfg.collapse_repeated_tags
  · rw [apply_filter_off cfg hc]
    exact removeHeaders_map_parse cfg _
  · rw [apply_filter_chunks cfg hc ht, removeHeaders_chunks, flatten_chunkRuns]

/-! ## Stable descending sort lemmas -/

theorem insertByDesc_perm {α : Type} (lt : α → α → Bool) (x : α) :
    ∀ l : List α, (insertByDesc lt x l).Perm (x :: l) := by
  intro l
  induction l with
  | nil => exact List.Perm.refl _
  | cons y ys ih =>
    unfold insertByDesc
    split
    · exact (List.Perm.cons y ih).trans (List.Perm.swap x y ys)
    · exact List.Perm.refl _

theorem sortByDesc_perm {α : Type} (lt : α → α → Bool) :
    ∀ l : List α, (sortByDesc lt l).Perm l := by
  intro l
  induction l with
  | nil => exact List.Perm.refl _
  | cons x xs ih =>
    exact (insertByDesc_perm lt x (sortByDesc lt xs)).trans (List.Perm.cons x ih)

theorem insertByDesc_pairwise {α : Type} (lt : α → α → Bool)
    (hasym : ∀ a b, lt a b = true → lt b a = false)
    (hneg : ∀ a b c, lt a b = false → lt b c = false → lt a c = false)
    (x : α) :
    ∀ {l : List α}, l.Pairwise (fun a b => lt a b = false) →
      (insertByDesc lt x l).Pairwise (fun a b => lt a b = false) := by
  intro l
  induction l with
  | nil => intro _; simp [insertByDesc]
  | cons y ys ih =>
    intro h
    rw [List.pairwise_cons] at h
    obtain ⟨hy, hys⟩ := h
    unfold insertByDesc
    split
    · rename_i hlt
      apply List.Pairwise.cons
      · intro z hz
        rcases List.mem_cons.mp
            ((insertByDesc_perm _ x ys).mem_iff.mp hz) with rfl | hz
        · exact hasym _ y hlt
        · exact hy z hz
      · exact ih hys
    · rename_i hlt
      have hxy : lt x y = false := Bool.eq_false_iff.mpr hlt
      apply List.Pairwise.cons
      · intro z hz
        rcases List.mem_cons.mp hz with rfl | hz
        · exact hxy
        · exact hneg x y z hxy (hy z hz)
      · exact List.Pairwise.cons hy hys

theorem sortByDesc_pairwise {α : Type} (lt : α → α → Bool)
    (hasym : ∀ a b, lt a b = true → lt b a = false)
    (hneg : ∀ a b c, lt a b = false → lt b c = false → lt a c = false) :
    ∀ l : List α,
      (sortByDesc lt l).Pairwise (fun a b => lt a b = false) := by
  intro l
  induction l with
  | nil => exact List.Pairwise.nil
  | cons x xs ih => exact insertByDesc_pairwise lt hasym hneg x ih

theorem insertByDesc_filter {α : Type} (lt : α → α → Bool) (p : α → Bool)
    (hkey : ∀ a b, lt a b = true → p a = true → p b = false) (x : α) :
    ∀ l : List α,
      (insertByDesc lt x l).filter p
        = if p x = true then x :: l.filter p else l.filter p := by
  intro l
  induction l with
  | nil =>
    by_cases hv : p x = true
    · simp [insertByDesc, hv]
    · simp [insertByDesc, List.filter_cons, hv]
  | cons y ys ih =>
    unfold insertByDesc
    split
    · rename_i hlt
      rw [List.filter_cons, List.filter_cons]
      by_cases hxv : p x = true
      · have hyv : p y = false := hkey x y hlt hxv
        rw [ih]
        simp [hyv, hxv]
      · rw [ih]
        by_cases hyv : p y = true
        · simp [hyv, hxv]
        · simp [hyv, hxv]
    · rw [List.filter_cons]

theorem sortByDesc_filter {α : Type} (lt : α → α → Bool) (p : α → Bool)
    (hkey : ∀ a b, lt a b = true → p a = true → p b = false) :
    ∀ l : List α, (sortByDesc lt l).filter p = l.filter p := by
  intro l
  induction l with
  | nil => rfl
  | cons x xs ih =>
    show (insertByDesc _ x (sortByDesc _ xs)).filter _ = _
    rw [insertByDesc_filter lt p hkey x, ih, List.filter_cons]

/-! ## Order facts for the lexicographic string comparison -/

theorem charListLt_asymm :
    ∀ as bs : List Char, charListLt as bs = true → charListLt bs as = false := by
  intro as
  induction as with
  | nil =>
    intro bs h
    cases bs with
    | nil => simp [charListLt] at h
    | cons b bs' => rfl
  | cons a as' ih =>
    intro bs h
    cases bs with
    | nil => simp [charListLt] at h
    | cons b bs' =>
      unfold charListLt at h ⊢
      by_cases hab : a < b
      · rw [if_neg (lt_asymm hab), if_pos hab]
      · rw [if_neg hab] at h
        by_cases hba : b < a
        · rw [if_pos hba] at h
          exact Bool.noConfusion h
        · rw [if_neg hba] at h
          rw [if_neg hba, if_neg hab]
          exact ih bs' h

theorem charListLt_negtrans :
    ∀ as bs cs : List Char, charListLt as bs = false →
      charListLt bs cs = false → charListLt as cs = false := by
  intro as
  induction as with
  | nil =>
    intro bs cs h1 h2
    cases bs with
    | nil =>
      cases cs with
      | nil => rfl
      | cons c cs' => simp [charListLt] at h2
    | cons b bs' => simp [charListLt] at h1
  | cons a as' ih =>
    intro bs cs h1 h2
    cases bs with
    | nil =>
      cases cs with
      | nil => rfl
      | cons c cs' => simp [charListLt] at h2
    | cons b bs' =>
      cases cs with
      | nil => rfl
      | cons c cs' =>
        unfold charListLt at h1 h2 ⊢
        by_cases hab : a < b
        · rw [if_pos hab] at h1
          exact Bool.noConfusion h1
        · by_cases hbc : b < c
          · rw [if_pos hbc] at h2
            exact Bool.noConfusion h2
          · have hba : b ≤ a := le_of_not_lt hab
            have hcb : c ≤ b := le_of_not_lt hbc
            have hac : ¬ a < c := not_lt_of_ge (le_trans hcb hba)
            rw [if_neg hac]
            by_cases hca : c < a
            · rw [if_pos hca]
            · rw [if_neg hca]
              have hac2 : a ≤ c := le_of_not_lt hca
              have hb_eq : b = a := le_antisymm hba (le_trans hac2 hcb)
              have hc_eq : c = b := le_antisymm hcb (le_trans hba hac2)
              rw [if_neg hab, if_neg (by rw [hb_eq]; exact lt_irrefl a)] at h1
              rw [if_neg hbc, if_neg (by rw [hc_eq]; exact lt_irrefl b)] at h2
              exact ih bs' cs' h1 h2

/-! ## The claims -/

set_option maxRecDepth 100000 in
/-- C1: the claim states that an incremental read (`load_log_file` with
`append=true`) extracts the notifications embedded in the newly appended
text exactly once.  The code computes `new_content` by slicing the line
list *after* it was already extended (src lines 503-511), so `new_content`
is always empty: an append read never adds any notification, even when the
appended suffix carries one (second and third conjuncts exhibit the
divergence at a concrete grown file). -/
theorem load_append_extracts_nothing :
    (∀ (st : ViewerState) (content : String) (cfg : FilterConfig),
        (load_log_file st content true cfg).notifications = st.notifications)
      ∧ parse_notifications demoSuffix ≠ []
      ∧ (load_log_file stLoaded demoGrown true cfgDemo).notifications = [] := by
  refine ⟨?_, by decide, by decide⟩
  intro st content cfg
  have hd : (splitKeepEnds content).drop
      (st.current_logs
        ++ (splitKeepEnds content).drop st.current_logs.length).length = [] := by
    rw [List.length_append, List.length_drop]
    apply List.drop_eq_nil_of_le
    omega
  simp only [load_log_file, if_true, hd]
  simp [parse_notifications, splitKeepEnds, splitKeepEndsAux,
    String.intercalate]

/-- C2: with repeat-collapsing enabled (and the spec §4.5 requirement that
the threshold is at least 1), every display list produced by
`apply_filter` is well formed: each synthetic group header states a count
equal to the number of member records immediately following it in its run,
and no header appears among the members of another header. -/
theorem apply_filter_goodDisplay (lines : List String) (cfg : FilterConfig)
    (hc : cfg.collapse_repeated_tags = true) (ht : 1 ≤ cfg.threshold) :
    GoodDisplay (apply_filter lines cfg) := by
  rw [apply_filter_chunks cfg hc ht]
  exact goodDisplay_flatten cfg _

set_option maxRecDepth 100000 in
theorem apply_filter_goodDisplay_witness :
    cfgDemo.collapse_repeated_tags = true ∧ 1 ≤ cfgDemo.threshold
      ∧ GoodDisplay (apply_filter demoLines cfgDemo) :=
  ⟨rfl, by decide, apply_filter_goodDisplay demoLines cfgDemo rfl (by decide)⟩

/-- C3: `apply_filter` evaluates the search and level predicates on each
line before any collapsing: it equals the collapse-only pass applied to
the filtered line stream, so collapsed runs consist only of surviving
records and run lengths are counted over the filtered stream. -/
theorem apply_filter_filter_then_collapse (lines : List String)
    (cfg : FilterConfig) :
    apply_filter lines cfg = collapseAll cfg (lines.filter (linePasses cfg)) :=
  apply_filter_eq_collapseAll lines cfg

/-- C4: with collapsing enabled and a threshold of at least 1 (spec §4.5),
`apply_filter` equals run-by-run emission over the filtered stream grouped
by signature (bracketed tag if present, else the digit-normalized content
key): a run of length at least the threshold yields exactly one
`group_header` record followed by all members in order, a shorter run
yields the members alone. -/
theorem apply_filter_emits_runs (lines : List String) (cfg : FilterConfig)
    (hc : cfg.collapse_repeated_tags = true) (ht : 1 ≤ cfg.threshold) :
    apply_filter lines cfg
      = ((chunkRuns (sigOf cfg.collapse_long_lines)
            (lines.filter (linePasses cfg))).map (emitRun cfg)).flatten :=
  apply_filter_chunks cfg hc ht lines

set_option maxRecDepth 100000 in
theorem apply_filter_emits_runs_witness :
    cfgDemo.collapse_repeated_tags = true ∧ 1 ≤ cfgDemo.threshold
      ∧ apply_filter demoLines cfgDemo
          = ((chunkRuns (sigOf cfgDemo.collapse_long_lines)
                (demoLines.filter (linePasses cfgDemo))).map
              (emitRun cfgDemo)).flatten :=
  ⟨rfl, by decide, apply_filter_emits_runs demoLines cfgDemo rfl (by decide)⟩

/-- C5: the search predicate of `apply_filter` is a case-insensitive
substring test against the original raw line: a line that passes the
level filter and whose raw line contains the search text
case-insensitively always contributes its parsed record to the display
list, for any truncation setting — truncation never hides a match. -/
theorem apply_filter_search_raw_line (cfg : FilterConfig)
    (lines : List String) (line : String) (ht : 1 ≤ cfg.threshold)
    (hmem : line ∈ lines)
    (hshow : should_show_log line cfg.filters = true)
    (hsearch : strContains (lowerStr line) (lowerStr cfg.search_text) = true) :
    parse_log_line line cfg.collapse_long_lines
      ∈ removeHeaders (apply_filter lines cfg) := by
  rw [removeHeaders_apply_filter cfg ht]
  refine List.mem_map_of_mem _ (List.mem_filter.mpr ⟨hmem, ?_⟩)
  simp [linePasses, hshow, hsearch]

set_option maxRecDepth 100000 in
theorem apply_filter_search_raw_line_witness :
    1 ≤ cfgSearch.threshold
      ∧ longLine ∈ [longLine]
      ∧ should_show_log longLine cfgSearch.filters = true
      ∧ strContains (lowerStr longLine) (lowerStr cfgSearch.search_text) = true
      ∧ strContains
          (lowerStr (parse_log_line longLine cfgSearch.collapse_long_lines).content)
          (lowerStr cfgSearch.search_text) = false
      ∧ parse_log_line longLine cfgSearch.collapse_long_lines
          ∈ removeHeaders (apply_filter [longLine] cfgSearch) :=
  ⟨by decide, by decide, by decide, by decide, by decide,
    apply_filter_search_raw_line cfgSearch [longLine] longLine
      (by decide) (by decide) (by decide) (by decide)⟩

set_option maxRecDepth 100000 in
/-- C6 counterexample: the claim states that a tail check observing a
strictly smaller file performs a full reload.  At a concrete loaded state
and shrunken content, `check_for_updates` differs from
`load_log_file(..., append=False)`: it performs an incremental append read
that keeps the stale line list. -/
theorem check_shrink_not_full_reload :
    fileSize demoShrunk < stLoaded.last_file_size
      ∧ check_for_updates stLoaded demoShrunk cfgDemo
          ≠ load_log_file stLoaded demoShrunk false cfgDemo
      ∧ (check_for_updates stLoaded demoShrunk cfgDemo).current_logs
          = stLoaded.current_logs := by
  refine ⟨by decide, by decide, by decide⟩

/-- C6 amended: whenever a tail check observes a current size different
from the last known size — including a strictly smaller one — it performs
an incremental append read (`load_log_file` with `append=True`); no
truncation detection or full reload takes place. -/
theorem check_shrink_append_read (st : ViewerState) (content : String)
    (cfg : FilterConfig) (h : fileSize content < st.last_file_size) :
    check_for_updates st content cfg = load_log_file st content true cfg := by
  unfold check_for_updates
  rw [if_pos (Nat.ne_of_lt h)]

set_option maxRecDepth 100000 in
theorem check_shrink_append_read_witness :
    fileSize demoShrunk < stLoaded.last_file_size
      ∧ check_for_updates stLoaded demoShrunk cfgDemo
          = load_log_file stLoaded demoShrunk true cfgDemo :=
  ⟨by decide,
    check_shrink_append_read stLoaded demoShrunk cfgDemo (by decide)⟩

/-- C7: when the current file size equals the last known size, the tail
check is a no-op: the whole installed state (`current_logs`,
`notifications`, `groups`, `last_file_size` and the display list) is left
unchanged. -/
theorem check_same_size_noop (st : ViewerState) (content : String)
    (cfg : FilterConfig) (h : fileSize content = st.last_file_size) :
    check_for_updates st content cfg = st := by
  unfold check_for_updates
  rw [if_neg]
  simp [h]

set_option maxRecDepth 100000 in
theorem check_same_size_noop_witness :
    fileSize demoOld = stLoaded.last_file_size
      ∧ check_for_updates stLoaded demoOld cfgDemo = stLoaded :=
  ⟨by decide, check_same_size_noop stLoaded demoOld cfgDemo (by decide)⟩

/-- C8: for every group-index state, the group selector sequence built by
`update_group_list` is the stable message-count-descending sort of the
insertion-ordered groups: counts are non-increasing along the list, the
sorted sequence is a permutation of the input, and groups of equal count
keep their first-seen relative order. -/
theorem update_group_list_sorted (groups : List (String × GroupInfo)) :
    update_group_list groups
        = "すべてのグループ" :: (sorted_groups groups).map groupLabel
      ∧ (sorted_groups groups).Pairwise
          (fun a b => groupCount b ≤ groupCount a)
      ∧ (sorted_groups groups).Perm groups
      ∧ ∀ n : Nat,
          (sorted_groups groups).filter (fun g => decide (groupCount g = n))
            = groups.filter (fun g => decide (groupCount g = n)) := by
  refine ⟨rfl, ?_, ?_, ?_⟩
  · have h := sortByDesc_pairwise
      (fun a b : String × GroupInfo => decide (groupCount a < groupCount b))
      (fun a b hab => decide_eq_false (not_lt_of_gt (of_decide_eq_true hab)))
      (fun a b c hab hbc => decide_eq_false (not_lt_of_ge (le_trans
        (Nat.le_of_not_lt (of_decide_eq_false hbc))
        (Nat.le_of_not_lt (of_decide_eq_false hab)))))
      groups
    exact h.imp (fun hab => Nat.le_of_not_lt (of_decide_eq_false hab))
  · exact sortByDesc_perm _ groups
  · intro n
    exact sortByDesc_filter
      (fun a b : String × GroupInfo => decide (groupCount a < groupCount b))
      (fun g => decide (groupCount g = n))
      (fun a b hab ha => decide_eq_false (by
        have h1 : groupCount a < groupCount b := of_decide_eq_true hab
        have h2 : groupCount a = n := of_decide_eq_true ha
        omega))
      groups

/-- C9: for a threshold of at least 1 (spec §4.5), deleting the synthetic
group headers from the display list produced by `apply_filter` yields
exactly the parsed records of the lines that passed the level and search
filters, in original file order: collapsing never drops, duplicates or
reorders a surviving record. -/
theorem apply_filter_members (lines : List String) (cfg : FilterConfig)
    (ht : 1 ≤ cfg.threshold) :
    removeHeaders (apply_filter lines cfg)
      = (lines.filter (linePasses cfg)).map
          (fun l => parse_log_line l cfg.collapse_long_lines) :=
  removeHeaders_apply_filter cfg ht lines

set_option maxRecDepth 100000 in
theorem apply_filter_members_witness :
    1 ≤ cfgDemo.threshold
      ∧ removeHeaders (apply_filter demoLines cfgDemo)
          = (demoLines.filter (linePasses cfgDemo)).map
              (fun l => parse_log_line l cfgDemo.collapse_long_lines) :=
  ⟨by decide, apply_filter_members demoLines cfgDemo (by decide)⟩

set_option maxRecDepth 100000 in
/-- C10: with empty search text the message panel shows the selected
notifications sorted by receipt date descending (`update_message_list`:
dates non-increasing, a permutation of the selection); with non-empty
search text `filter_messages` shows the matching notifications as a
sublist of the selection in original insertion order, with no date sort —
and on a concrete selection the two views of the same messages really do
differ in ordering. -/
theorem message_panel_orderings :
    (∀ messages : List NotificationData,
        (update_message_list messages).Pairwise
            (fun a b => strLt a.date b.date = false)
          ∧ (update_message_list messages).Perm messages)
      ∧ (∀ (messages : List NotificationData) (s : String),
          lowerStr s ≠ "" →
            filter_messages messages s
                = messages.filter
                    (fun n => strContains (lowerStr n.message) (lowerStr s))
              ∧ (filter_messages messages s).Sublist messages)
      ∧ update_message_list demoMsgs ≠ filter_messages demoMsgs "m"
      ∧ (filter_messages demoMsgs "m").Perm (update_message_list demoMsgs) := by
  refine ⟨?_, ?_, by decide, by decide⟩
  · intro messages
    refine ⟨?_, sortByDesc_perm _ messages⟩
    exact sortByDesc_pairwise
      (fun a b : NotificationData => strLt a.date b.date)
      (fun a b hab => charListLt_asymm _ _ hab)
      (fun a b c hab hbc => charListLt_negtrans _ _ _ hab hbc)
      messages
  · intro messages s hs
    unfold filter_messages
    rw [if_neg hs]
    exact ⟨rfl, List.filter_sublist messages⟩

set_option maxRecDepth 100000 in
theorem message_panel_orderings_witness :
    lowerStr "m" ≠ ""
      ∧ (filter_messages demoMsgs "m"
            = demoMsgs.filter
                (fun n => strContains (lowerStr n.message) (lowerStr "m"))
          ∧ (filter_messages demoMsgs "m").Sublist demoMsgs) :=
  ⟨by decide, message_panel_orderings.2.1 demoMsgs "m" (by decide)⟩

end VRChatLogViewer
